import Mathlib

/-!
Verification development for the `om` relational-mapping engine.

The definitions below are shallow embeddings of the Python sources:
  * `src/om/db/base.py`   — connection pool (`ConnectionPool`)
  * `src/om/table.py`     — expression engine, query context, update plan
  * `src/om/tracking.py`  — dirty-field tracking (`TrackingHolder`)

Machine state that Python mutates in place is passed explicitly; fallible
Python code (raising exceptions) is embedded with `Except`.
-/

namespace OmSpec

/-! ## Connection pool (`src/om/db/base.py`, class `ConnectionPool`)

Connections are identified by the order in which `_new_connection` created
them (`nextId` is the next fresh identity).  `time.time()` timestamps are
modelled by the strictly increasing counter `clock`, so all timestamps in
the free-list heap are distinct and `heapq.heappop` is exactly
"minimum by timestamp".  The `_FREE_TOKEN` attribute (`__freed__`) is the
set `freed`; `_mark_free` inserts, `_mark_un_free` removes, and the
attribute being absent counts as not freed.  `closedConns` records the
connections torn down by `ConnectionPool.close`.  The live count `_cnt`
is an `Int` because Python never clamps it. -/

structure Pool where
  maximum : Nat
  cnt : Int
  freeList : List (Nat × Nat)
  freed : List Nat
  closedConns : List Nat
  nextId : Nat
  clock : Nat
deriving DecidableEq

/-- `heapq.heappop`: remove the minimum element (by timestamp) of the heap.
Timestamps are pairwise distinct in every reachable pool state, so the
tie-breaking comparison of connection objects never happens. -/
def popMin : List (Nat × Nat) → Option ((Nat × Nat) × List (Nat × Nat))
  | [] => none
  | x :: xs =>
    match popMin xs with
    | none => some (x, [])
    | some (m, rest) => if x.1 ≤ m.1 then some (x, xs) else some (m, x :: rest)

/-- `ConnectionPool.allocate` with `blocking=0` (the non-blocking path;
the blocking path re-runs the same pop-or-create logic after a wait, so
its state transitions coincide with iterating this function).
Returns the new pool state and `some` connection, or `none` when
`_handle_exhausted` raises.  The `finally` block marks the returned
connection un-free.  Creation is guarded by the source's
`if self._maximum and self._cnt <= self._maximum`. -/
def Pool.allocate (s : Pool) : Pool × Option Nat :=
  match popMin s.freeList with
  | some ((_, c), rest) =>
    ({ s with freeList := rest, freed := s.freed.erase c }, some c)
  | none =>
    if s.maximum ≠ 0 ∧ s.cnt ≤ (s.maximum : Int) then
      let c := s.nextId
      ({ s with cnt := s.cnt + 1, nextId := s.nextId + 1,
                freed := s.freed.erase c }, some c)
    else
      (s, none)

/-- `ConnectionPool.close`: close the connection and decrement the live
count. -/
def Pool.closeCon (s : Pool) (c : Nat) : Pool :=
  { s with closedConns := c :: s.closedConns, cnt := s.cnt - 1 }

/-- `ConnectionPool.free`: no-op when the `__freed__` flag is already set;
otherwise set the flag, then either retire the connection (operational
error) or push it onto the free-list heap with the current timestamp. -/
def Pool.free (s : Pool) (c : Nat) (opErr : Bool) : Pool :=
  if c ∈ s.freed then s
  else
    let s1 : Pool := { s with freed := c :: s.freed }
    if opErr then s1.closeCon c
    else { s1 with freeList := s1.freeList ++ [(s1.clock, c)],
                   clock := s1.clock + 1 }

/-- A fresh pool as built by `ConnectionPool.__init__` with the given
maximum. -/
def initPool (m : Nat) : Pool :=
  { maximum := m, cnt := 0, freeList := [], freed := [], closedConns := [],
    nextId := 0, clock := 0 }

/-- One client call against the pool. -/
inductive PoolOp where
  | alloc
  | free (c : Nat) (opErr : Bool)
deriving DecidableEq

def Pool.step (s : Pool) : PoolOp → Pool
  | .alloc => s.allocate.1
  | .free c e => s.free c e

def Pool.run (s : Pool) : List PoolOp → Pool
  | [] => s
  | op :: ops => (s.step op).run ops

/-- A call sequence is well formed when every `free` is on a connection
the pool has actually created (clients can only pass back objects they
were handed). -/
def Pool.wfOpB (s : Pool) : PoolOp → Bool
  | .alloc => true
  | .free c _ => decide (c < s.nextId)

def Pool.wf (s : Pool) : List PoolOp → Bool
  | [] => true
  | op :: ops => s.wfOpB op && (s.step op).wf ops

/-- Invariant tying together the free list, the `__freed__` flags and the
set of retired connections. -/
structure PoolInv (s : Pool) : Prop where
  closed_freed : ∀ c ∈ s.closedConns, c ∈ s.freed
  closed_not_free : ∀ c ∈ s.closedConns, c ∉ s.freeList.map Prod.snd
  closed_lt : ∀ c ∈ s.closedConns, c < s.nextId
  free_lt : ∀ p ∈ s.freeList, p.2 < s.nextId
  free_freed : ∀ p ∈ s.freeList, p.2 ∈ s.freed
  free_nodup : (s.freeList.map Prod.snd).Nodup

theorem popMin_none {l : List (Nat × Nat)} (h : popMin l = none) : l = [] := by
  cases l with
  | nil => rfl
  | cons x xs =>
    simp only [popMin] at h
    cases hx : popMin xs with
    | none => simp [hx] at h
    | some m =>
      rw [hx] at h
      by_cases hle : x.1 ≤ m.1.1 <;> simp [hle] at h

theorem popMin_decomp {l rest : List (Nat × Nat)} {m : Nat × Nat}
    (h : popMin l = some (m, rest)) :
    ∃ l1 l2, l = l1 ++ m :: l2 ∧ rest = l1 ++ l2 := by
  induction l generalizing m rest with
  | nil => simp [popMin] at h
  | cons x xs ih =>
    simp only [popMin] at h
    cases hx : popMin xs with
    | none =>
      rw [hx] at h
      have hxs := popMin_none hx
      subst hxs
      simp only [Option.some.injEq, Prod.mk.injEq] at h
      exact ⟨[], [], by simp [h.1], by simp [← h.2]⟩
    | some p =>
      obtain ⟨pm, pr⟩ := p
      rw [hx] at h
      by_cases hle : x.1 ≤ pm.1
      · simp only [hle, if_true, Option.some.injEq, Prod.mk.injEq] at h
        exact ⟨[], xs, by simp [h.1.symm], by simp [h.2.symm]⟩
      · simp only [hle, if_false, Option.some.injEq, Prod.mk.injEq] at h
        obtain ⟨l1, l2, hxs1, hxs2⟩ := ih hx
        refine ⟨x :: l1, l2, ?_, ?_⟩
        · simp [hxs1, h.1]
        · rw [← h.2, hxs2]; simp

theorem poolInv_init (m : Nat) : PoolInv (initPool m) := by
  constructor <;> simp [initPool]

theorem poolInv_alloc {s : Pool} (hs : PoolInv s) : PoolInv s.allocate.1 := by
  obtain ⟨h1, h2, h3, h4, h5, h6⟩ := hs
  unfold Pool.allocate
  cases hpop : popMin s.freeList with
  | some pr =>
    obtain ⟨⟨t, c'⟩, rest⟩ := pr
    obtain ⟨l1, l2, hl, hrest⟩ := popMin_decomp hpop
    have hidl : s.freeList.map Prod.snd
        = l1.map Prod.snd ++ c' :: l2.map Prod.snd := by rw [hl]; simp
    have hidrest : rest.map Prod.snd = l1.map Prod.snd ++ l2.map Prod.snd := by
      rw [hrest]; simp
    have hmid : (c' :: (l1.map Prod.snd ++ l2.map Prod.snd)).Nodup := by
      rw [hidl] at h6
      exact List.nodup_middle.mp h6
    have hc'notin : c' ∉ l1.map Prod.snd ++ l2.map Prod.snd :=
      (List.nodup_cons.mp hmid).1
    have hrestsub : ∀ p ∈ rest, p ∈ s.freeList := by
      intro p hp
      rw [hrest] at hp
      rw [hl]
      rcases List.mem_append.mp hp with h | h
      · exact List.mem_append.mpr (Or.inl h)
      · exact List.mem_append.mpr (Or.inr (List.mem_cons_of_mem _ h))
    have hc'id : c' ∈ s.freeList.map Prod.snd := by
      rw [hidl]; exact List.mem_append.mpr (Or.inr (List.mem_cons_self _ _))
    constructor
    · intro c hcm
      have hne : c ≠ c' := fun h => (h2 c hcm) (h ▸ hc'id)
      exact (List.mem_erase_of_ne hne).mpr (h1 c hcm)
    · intro c hcm hmem
      apply h2 c hcm
      rw [hidrest] at hmem
      rw [hidl]
      rcases List.mem_append.mp hmem with h | h
      · exact List.mem_append.mpr (Or.inl h)
      · exact List.mem_append.mpr (Or.inr (List.mem_cons_of_mem _ h))
    · exact h3
    · intro p hp; exact h4 p (hrestsub p hp)
    · intro p hp
      have hpin := h5 p (hrestsub p hp)
      have hpne : p.2 ≠ c' := by
        intro h
        apply hc'notin
        rw [← h, ← hidrest]
        exact List.mem_map_of_mem Prod.snd hp
      exact (List.mem_erase_of_ne hpne).mpr hpin
    · rw [hidrest]; exact (List.nodup_cons.mp hmid).2
  | none =>
    by_cases hc : s.maximum ≠ 0 ∧ s.cnt ≤ (s.maximum : Int)
    · rw [if_pos hc]
      constructor
      · intro c hcm
        exact (List.mem_erase_of_ne (Nat.ne_of_lt (h3 c hcm))).mpr (h1 c hcm)
      · exact h2
      · intro c hcm; exact Nat.lt_succ_of_lt (h3 c hcm)
      · intro p hp; exact Nat.lt_succ_of_lt (h4 p hp)
      · intro p hp
        exact (List.mem_erase_of_ne (Nat.ne_of_lt (h4 p hp))).mpr (h5 p hp)
      · exact h6
    · rw [if_neg hc]
      exact ⟨h1, h2, h3, h4, h5, h6⟩

theorem poolInv_free {s : Pool} {c : Nat} {e : Bool}
    (hs : PoolInv s) (hlt : c < s.nextId) : PoolInv (s.free c e) := by
  obtain ⟨h1, h2, h3, h4, h5, h6⟩ := hs
  unfold Pool.free Pool.closeCon
  by_cases hf : c ∈ s.freed
  · simp only [hf, if_true]
    exact ⟨h1, h2, h3, h4, h5, h6⟩
  · have hnotid : c ∉ s.freeList.map Prod.snd := by
      intro hmem
      obtain ⟨p, hp, hps⟩ := List.mem_map.mp hmem
      exact hf (hps ▸ h5 p hp)
    cases e with
    | true =>
      simp only [hf, if_false, if_true]
      constructor
      · intro d hd
        rcases List.mem_cons.mp hd with h | h
        · exact h ▸ List.mem_cons_self _ _
        · exact List.mem_cons_of_mem _ (h1 d h)
      · intro d hd
        rcases List.mem_cons.mp hd with h | h
        · exact h ▸ hnotid
        · exact h2 d h
      · intro d hd
        rcases List.mem_cons.mp hd with h | h
        · exact h ▸ hlt
        · exact h3 d h
      · exact h4
      · intro p hp; exact List.mem_cons_of_mem _ (h5 p hp)
      · exact h6
    | false =>
      simp only [hf, if_false, Bool.false_eq_true]
      constructor
      · intro d hd; exact List.mem_cons_of_mem _ (h1 d hd)
      · intro d hd hmem
        simp only [List.map_append, List.map_cons, List.map_nil] at hmem
        rcases List.mem_append.mp hmem with h | h
        · exact h2 d hd h
        · have : d = c := by simpa using h
          exact hf (this ▸ h1 d hd)
      · exact h3
      · intro p hp
        rcases List.mem_append.mp hp with h | h
        · exact h4 p h
        · have : p = (s.clock, c) := by simpa using h
          rw [this]; exact hlt
      · intro p hp
        rcases List.mem_append.mp hp with h | h
        · exact List.mem_cons_of_mem _ (h5 p h)
        · have : p = (s.clock, c) := by simpa using h
          rw [this]; exact List.mem_cons_self _ _
      · simp only [List.map_append, List.map_cons, List.map_nil]
        simp [List.nodup_append, h6, hnotid]

/-- Well-formedness of a single call: `free` only on connections the pool
created. -/
def wfOp (s : Pool) : PoolOp → Prop
  | .alloc => True
  | .free c _ => c < s.nextId

theorem poolInv_step {s : Pool} {op : PoolOp}
    (hs : PoolInv s) (hop : wfOp s op) : PoolInv (s.step op) := by
  cases op with
  | alloc => exact poolInv_alloc hs
  | free c e => exact poolInv_free hs hop

theorem poolInv_run {s : Pool} {ops : List PoolOp}
    (hs : PoolInv s) (hwf : s.wf ops = true) : PoolInv (s.run ops) := by
  induction ops generalizing s with
  | nil => exact hs
  | cons op ops ih =>
    simp only [Pool.wf, Bool.and_eq_true] at hwf
    simp only [Pool.run]
    refine ih ?_ hwf.2
    cases op with
    | alloc => exact poolInv_alloc hs
    | free c e =>
      exact poolInv_free hs (by simpa [Pool.wfOpB] using hwf.1)

theorem closed_mono_step {s : Pool} {op : PoolOp} {c : Nat}
    (h : c ∈ s.closedConns) : c ∈ (s.step op).closedConns := by
  cases op with
  | alloc =>
    rw [Pool.step]
    unfold Pool.allocate
    cases hpop : popMin s.freeList with
    | some pr =>
      obtain ⟨⟨t, c'⟩, rest⟩ := pr
      simpa using h
    | none =>
      by_cases hc : s.maximum ≠ 0 ∧ s.cnt ≤ (s.maximum : Int) <;>
        simp [hc] <;> exact h
  | free c' e =>
    rw [Pool.step]
    unfold Pool.free Pool.closeCon
    by_cases hf : c' ∈ s.freed
    · simpa [hf] using h
    · cases e with
      | true => simp only [hf, if_false, if_true]; exact List.mem_cons_of_mem _ h
      | false => simpa [hf] using h

theorem closed_mono_run {s : Pool} {ops : List PoolOp} {c : Nat}
    (h : c ∈ s.closedConns) : c ∈ (s.run ops).closedConns := by
  induction ops generalizing s with
  | nil => exact h
  | cons op ops ih => exact ih (closed_mono_step h)

theorem alloc_not_closed {s : Pool} {c : Nat}
    (hs : PoolInv s) (hc : c ∈ s.closedConns) : s.allocate.2 ≠ some c := by
  unfold Pool.allocate
  cases hpop : popMin s.freeList with
  | some pr =>
    obtain ⟨⟨t, c'⟩, rest⟩ := pr
    obtain ⟨l1, l2, hl, _⟩ := popMin_decomp hpop
    intro heq
    have hc'c : c' = c := by simpa using heq
    apply hs.closed_not_free c hc
    rw [hl, ← hc'c]
    simp
  | none =>
    by_cases hcond : s.maximum ≠ 0 ∧ s.cnt ≤ (s.maximum : Int)
    · rw [if_pos hcond]
      intro heq
      have hcn : s.nextId = c := by simpa using heq
      have := hs.closed_lt c hc
      rw [hcn] at this
      exact absurd this (Nat.lt_irrefl c)
    · rw [if_neg hcond]
      simp

/-- C1: the claim says `allocated_cnt` never exceeds the configured
maximum `N` for any sequence of `allocate`/`free` calls.  The source guard
`self._cnt <= self._maximum` (instead of `<`) lets `_new_connection` run
when the live count already equals the maximum, so after two `allocate`
calls on a pool with maximum 1 the live count is 2.  This theorem
evaluates the embedded code at that failing input. -/
theorem pool_cnt_exceeds_maximum_at_two_allocs :
    ((initPool 1).run [PoolOp.alloc, PoolOp.alloc]).cnt = 2 ∧
    (initPool 1).maximum = 1 := by decide

/-- C3: freeing a checked-out connection with an operational error retires
it: it is recorded closed, the live count is decremented, it is not placed
on the free list, and along every well-formed continuation of the run no
`allocate` ever returns it again. -/
theorem pool_free_operational_retires (s : Pool) (c : Nat)
    (hinv : PoolInv s) (hout : c ∉ s.freed) (hc : c < s.nextId) :
    c ∈ (s.free c true).closedConns ∧
    (s.free c true).cnt = s.cnt - 1 ∧
    c ∉ (s.free c true).freeList.map Prod.snd ∧
    ∀ ops : List PoolOp, (s.free c true).wf ops = true →
      ((s.free c true).run ops).allocate.2 ≠ some c := by
  have hnotid : c ∉ s.freeList.map Prod.snd := by
    intro hmem
    obtain ⟨p, hp, hps⟩ := List.mem_map.mp hmem
    exact hout (hps ▸ hinv.free_freed p hp)
  have hfree_eq : s.free c true = Pool.closeCon { s with freed := c :: s.freed } c := by
    unfold Pool.free
    rw [if_neg hout]
    rfl
  refine ⟨?_, ?_, ?_, ?_⟩
  · rw [hfree_eq]; exact List.mem_cons_self _ _
  · rw [hfree_eq]; rfl
  · rw [hfree_eq]; exact hnotid
  · intro ops hwf
    have hinv1 : PoolInv (s.free c true) := poolInv_free hinv hc
    have hclosed1 : c ∈ (s.free c true).closedConns := by
      rw [hfree_eq]; exact List.mem_cons_self _ _
    exact alloc_not_closed (poolInv_run hinv1 hwf) (closed_mono_run hclosed1)

theorem pool_free_operational_retires_witness :
    0 ∈ (((initPool 1).run [PoolOp.alloc]).free 0 true).closedConns ∧
    ((((initPool 1).run [PoolOp.alloc]).free 0 true).run
        [PoolOp.alloc, PoolOp.free 1 false, PoolOp.alloc]).allocate.2 ≠ some 0 := by
  have h := pool_free_operational_retires ((initPool 1).run [PoolOp.alloc]) 0
    (by constructor <;> decide) (by decide) (by decide)
  exact ⟨h.1, h.2.2.2 [PoolOp.alloc, PoolOp.free 1 false, PoolOp.alloc] (by decide)⟩

/-- C4: `ConnectionPool.free` is idempotent — freeing the same connection
again without an intervening `allocate` leaves the pool state (live count,
free list, flags) exactly as after the first `free`, whatever error value
the second call carries. -/
theorem pool_free_idempotent (s : Pool) (c : Nat) (e e' : Bool) :
    (s.free c e).free c e' = s.free c e := by
  unfold Pool.free Pool.closeCon
  by_cases hf : c ∈ s.freed
  · simp [hf]
  · cases e <;> simp [hf]

/-! ## Values (`src/om/table.py` / `src/om/tracking.py`)

Python values flowing through predicate arguments and tracked fields:
integers, strings, sequences (for `IN`), and the `ZERO_VALUE` sentinel
from `src/om/tracking.py` (a unique object distinguishable from every
real value; `v is ZERO_VALUE` is the `isZero` test). -/

inductive Val where
  | int (n : Int)
  | str (s : String)
  | vtup (l : List Val)
  | zero

/-- The `v is ZERO_VALUE` identity test. -/
def Val.isZero : Val → Bool
  | .zero => true
  | _ => false

/-- Modelled from the spec: the error taxonomy.  `improperlyConfig` is
`om.exceptions.ImproperlyConfig` (the `exceptions` module is not under
`src/`; §7 of the spec names it the ConfigurationError taxon).
`keyError`, `valueError` and `attributeError` are the Python built-in
exceptions of the same names, which are distinct classes from
`ImproperlyConfig`.  `operational` is `om.db.base.OperationalError`. -/
inductive OmErr where
  | improperlyConfig
  | keyError
  | valueError
  | attributeError
  | operational
deriving DecidableEq

/-! ## Table mappers and columns (`src/om/table.py`)

A `Mapper` is a declared `TableMapper` class after metaclass processing:
`mid` is the class identity, `cols` is `Meta.__cols__` as
field name → `db_column`, `identifiers` is `Meta.__identifier_set__` and
`managed` is `Meta.__managed_set__` (entity classes by identity). -/

structure Mapper where
  mid : Nat
  dbTable : String
  cols : List (String × String)
  identifiers : List String
  managed : List Nat
deriving DecidableEq

/-- A `Column` object: its physical `db_column` name and the mapper class
`resolve_meta`/`clone_for` bound it to (`None` before binding). -/
structure Column where
  dbColumn : String
  tableMapper : Option Mapper
deriving DecidableEq

/-- `Meta.get_column`: look up the `Column` for a field name; the column
carries the mapper it is declared on. -/
def Mapper.getColumn (m : Mapper) (f : String) : Option Column :=
  match m.cols.lookup f with
  | none => none
  | some dbc => some ⟨dbc, some m⟩

/-! ## Expression engine (`src/om/table.py`, classes `Expr`,
`BetweenExpr`, `NullExpr`, `NotNullExpr`)

An `Expr` node holds its column, its own predicate kind, and the
`next_expr` list of `(conjunction, node)` pairs (`Chain` is that list,
kept as a mutual inductive so structural recursion mirrors
`Expr.building`). -/

inductive ExprKind where
  | plain (op : String) (v : Val)
  | between (a b : Val)
  | isNull
  | isNotNull

mutual
inductive Expr where
  | mk (column : Column) (kind : ExprKind) (next : Chain)
inductive Chain where
  | nil
  | cons (conj : String) (e : Expr) (rest : Chain)
end

/-- `next_expr.append((tp, other))` at the end of the list. -/
def Chain.push : Chain → String → Expr → Chain
  | .nil, tp, e => .cons tp e .nil
  | .cons t e' r, tp, e => .cons t e' (r.push tp e)

/-- `Expr.__and__`: mutates `self.next_expr` by appending
`("AND", other)` and returns `self`. -/
def Expr.andE : Expr → Expr → Expr
  | .mk c k ch, other => .mk c k (ch.push "AND" other)

/-- `Expr.__or__`: appends `("OR", other)`. -/
def Expr.orE : Expr → Expr → Expr
  | .mk c k ch, other => .mk c k (ch.push "OR" other)

/-- `Expr._generating_sql` (and the `BetweenExpr`/`NullExpr`/
`NotNullExpr` overrides): render the node's own predicate and append its
values to `args`.  `"%s %s %%s" % (col_name, op)` is
`col_name ++ " " ++ op ++ " %s"`. -/
def generatingSql (c : Column) (k : ExprKind) (fn : Column → String)
    (args : List Val) : String × List Val :=
  match k with
  | .plain op v => (fn c ++ " " ++ op ++ " %s", args ++ [v])
  | .between a b =>
    (String.intercalate " " [fn c, "BETWEEN", "%s", "AND", "%s"],
     args ++ [a, b])
  | .isNull => (String.intercalate " " [fn c, "IS NULL"], args)
  | .isNotNull => (String.intercalate " " [fn c, "IS NOT NULL"], args)

mutual
/-- `Expr.building`: render the own predicate, then each chained
`(conjunction, node)` as `"<conj> (<nested>)"`, join with spaces; `args`
is threaded in traversal order. -/
def Expr.building : Expr → (Column → String) → List Val → String × List Val
  | .mk c k next, fn, args =>
    let p := generatingSql c k fn args
    let q := Chain.buildingList next fn p.2
    (String.intercalate " " (p.1 :: q.1), q.2)

def Chain.buildingList :
    Chain → (Column → String) → List Val → List String × List Val
  | .nil, _, args => ([], args)
  | .cons tp e rest, fn, args =>
    let p := Expr.building e fn args
    let q := Chain.buildingList rest fn p.2
    ((tp ++ " (" ++ p.1 ++ ")") :: q.1, q.2)
end

/-- The spec's description of a single predicate's SQL (§4.3/§4.5 of the
spec): the column name, the operator and its parameter placeholders. -/
def ownSql (c : Column) (k : ExprKind) (fn : Column → String) : String :=
  match k with
  | .plain op _ => fn c ++ " " ++ op ++ " %s"
  | .between _ _ => String.intercalate " " [fn c, "BETWEEN", "%s", "AND", "%s"]
  | .isNull => String.intercalate " " [fn c, "IS NULL"]
  | .isNotNull => String.intercalate " " [fn c, "IS NOT NULL"]

/-- The spec's description of a single predicate's argument slots:
one value for a plain comparison, the two bounds for `BETWEEN`, none for
the null tests. -/
def ownArgs : ExprKind → List Val
  | .plain _ v => [v]
  | .between a b => [a, b]
  | .isNull => []
  | .isNotNull => []

mutual
/-- The spec's compositional rendering: the node's own clause followed by
each chained clause as `"<conjunction> (<nested>)"`, space-joined. -/
def specSql : Expr → (Column → String) → String
  | .mk c k next, fn => String.intercalate " " (ownSql c k fn :: specChainSqls next fn)

def specChainSqls : Chain → (Column → String) → List String
  | .nil, _ => []
  | .cons tp e rest, fn =>
    (tp ++ " (" ++ specSql e fn ++ ")") :: specChainSqls rest fn
end

mutual
/-- The spec's compositional argument collection: own arguments first,
then each chained node's arguments in list order. -/
def specArgs : Expr → List Val
  | .mk _ k next => ownArgs k ++ specChainArgs next

def specChainArgs : Chain → List Val
  | .nil => []
  | .cons _ e rest => specArgs e ++ specChainArgs rest
end

theorem generatingSql_split (c : Column) (k : ExprKind) (fn : Column → String)
    (args : List Val) : generatingSql c k fn args = (ownSql c k fn, args ++ ownArgs k) := by
  cases k <;> simp [generatingSql, ownSql, ownArgs]

mutual
theorem building_spec (e : Expr) (fn : Column → String) (args : List Val) :
    e.building fn args = (specSql e fn, args ++ specArgs e) := by
  cases e with
  | mk c k next =>
    simp only [Expr.building, specSql, specArgs, generatingSql_split,
      buildingList_spec next fn (args ++ ownArgs k)]
    simp [List.append_assoc]

theorem buildingList_spec (ch : Chain) (fn : Column → String) (args : List Val) :
    Chain.buildingList ch fn args = (specChainSqls ch fn, args ++ specChainArgs ch) := by
  cases ch with
  | nil => simp [Chain.buildingList, specChainSqls, specChainArgs]
  | cons tp e rest =>
    simp only [Chain.buildingList, specChainSqls, specChainArgs,
      building_spec e fn args, buildingList_spec rest fn (args ++ specArgs e)]
    simp [List.append_assoc]
end

/-- `gt_expr` -/
def gtExpr (c : Column) (v : Val) : Expr := .mk c (.plain ">" v) .nil

/-- `ge_expr` -/
def geExpr (c : Column) (v : Val) : Expr := .mk c (.plain ">=" v) .nil

/-- `lt_expr` -/
def ltExpr (c : Column) (v : Val) : Expr := .mk c (.plain "<" v) .nil

/-- `le_expr` -/
def leExpr (c : Column) (v : Val) : Expr := .mk c (.plain "<=" v) .nil

/-- `eq_expr` -/
def eqExpr (c : Column) (v : Val) : Expr := .mk c (.plain "=" v) .nil

/-- `ne_expr` -/
def neExpr (c : Column) (v : Val) : Expr := .mk c (.plain "<>" v) .nil

/-- `like_expr` -/
def likeExpr (c : Column) (v : Val) : Expr := .mk c (.plain "LIKE" v) .nil

/-- `in_expr`: the whole sequence is the single value of the node. -/
def inExpr (c : Column) (v : Val) : Expr := .mk c (.plain "IN" v) .nil

/-- `between_expr(column, a, b)` builds `BetweenExpr(column, "", (a, b))`. -/
def betweenExpr (c : Column) (a b : Val) : Expr := .mk c (.between a b) .nil

/-- `is_null_expr` -/
def isNullExpr (c : Column) : Expr := .mk c .isNull .nil

/-- `is_not_null_expr` -/
def isNotNullExpr (c : Column) : Expr := .mk c .isNotNull .nil

/-- `Column.__eq__`: comparing with `None` yields the `IS NULL` node. -/
def colEq (c : Column) (v : Option Val) : Expr :=
  match v with
  | none => isNullExpr c
  | some v => eqExpr c v

/-- `Column.__ne__`: comparing with `None` yields the `IS NOT NULL`
node. -/
def colNe (c : Column) (v : Option Val) : Expr :=
  match v with
  | none => isNotNullExpr c
  | some v => neExpr c v

/-- The column-naming function of the worked examples: a column renders
as `<db_column>` in angle brackets. -/
def exprFn : Column → String := fun c => "<" ++ c.dbColumn ++ ">"

def idColumn : Column := ⟨"id", none⟩

def nameColumn : Column := ⟨"name", none⟩

/-- C2: `Expr.building` renders the node's own predicate first, then each
chained `(conjunction, node)` pair in list order as
`"<conjunction> (<recursive rendering>)"`, space-joined, collecting
arguments in the same traversal order; in particular
`(Books.id > 0) & (Books.id < 8)` renders `"<id> > %s AND (<id> < %s)"`
with arguments `[0, 8]`, and
`((Books.id > 0) | (Books.id < 9)) & (Books.name < 8)` renders
`"<id> > %s OR (<id> < %s) AND (<name> < %s)"` with arguments
`[0, 9, 8]`. -/
theorem expr_building_chained_rendering :
    (∀ (e : Expr) (fn : Column → String) (args : List Val),
        e.building fn args = (specSql e fn, args ++ specArgs e)) ∧
    ((gtExpr idColumn (.int 0)).andE (ltExpr idColumn (.int 8))).building exprFn []
      = ("<id> > %s AND (<id> < %s)", [.int 0, .int 8]) ∧
    (((gtExpr idColumn (.int 0)).orE (ltExpr idColumn (.int 9))).andE
        (ltExpr nameColumn (.int 8))).building exprFn []
      = ("<id> > %s OR (<id> < %s) AND (<name> < %s)", [.int 0, .int 9, .int 8]) :=
  ⟨fun e fn args => building_spec e fn args, rfl, rfl⟩

/-- C8: comparing a column for equality with `None` renders
`"<col> IS NULL"` and for inequality `"<col> IS NOT NULL"`, both leaving
the argument list untouched; an `IN` predicate renders one `%s`
placeholder and appends the whole sequence as a single argument; a
`BETWEEN` predicate renders two placeholders and appends exactly its two
bounds in order. -/
theorem column_special_predicate_rendering (c : Column) (fn : Column → String)
    (args : List Val) (v a b : Val) :
    (colEq c none).building fn args = (fn c ++ " IS NULL", args) ∧
    (colNe c none).building fn args = (fn c ++ " IS NOT NULL", args) ∧
    (inExpr c v).building fn args = (fn c ++ " IN %s", args ++ [v]) ∧
    (betweenExpr c a b).building fn args
      = (fn c ++ " BETWEEN %s AND %s", args ++ [a, b]) := by
  refine ⟨?_, ?_, ?_, ?_⟩ <;>
    simp [colEq, colNe, inExpr, betweenExpr, isNullExpr, isNotNullExpr,
      Expr.building, Chain.buildingList, generatingSql,
      String.intercalate, String.intercalate.go, String.append_assoc]

theorem column_special_predicate_rendering_witness :
    (colEq idColumn none).building exprFn [] = ("<id> IS NULL", []) ∧
    (colNe idColumn none).building exprFn [] = ("<id> IS NOT NULL", []) ∧
    (inExpr idColumn (.vtup [.int 1, .int 2, .int 3])).building exprFn []
      = ("<id> IN %s", [.vtup [.int 1, .int 2, .int 3]]) ∧
    (betweenExpr idColumn (.int 1) (.int 2)).building exprFn []
      = ("<id> BETWEEN %s AND %s", [.int 1, .int 2]) :=
  column_special_predicate_rendering idColumn exprFn []
    (.vtup [.int 1, .int 2, .int 3]) (.int 1) (.int 2)

/-! ## Dirty tracking (`src/om/tracking.py`)

`Field` descriptors, the per-type `TrackingManager` (its `fields` dict)
and the per-instance `TrackingHolder`.  Python's `dict` assignment is
`setAssoc` (replace in place or append); `set.add` on `_dirty` appends
the name if absent.  The holder invariant "every dirty name has a value"
holds by construction (`update` writes the value it marks dirty), so
`dirty_fields_map`'s `self._values_map[k]` lookup is modelled with the
same default-to-sentinel read as `TrackingHolder.get`. -/

structure FieldD where
  unwatch : Bool
deriving DecidableEq

structure Manager where
  fields : List (String × FieldD)

structure Holder where
  dirty : List String
  valuesMap : List (String × Val)

def setAssoc : List (String × Val) → String → Val → List (String × Val)
  | [], k, v => [(k, v)]
  | p :: rest, k, v =>
    if p.1 = k then (k, v) :: rest else p :: setAssoc rest k v

/-- A fresh `TrackingHolder`. -/
def Holder.empty : Holder := ⟨[], []⟩

/-- `TrackingHolder.get`: an unset field reads as the `ZERO_VALUE`
sentinel. -/
def Holder.get (h : Holder) (f : String) : Val :=
  (h.valuesMap.lookup f).getD Val.zero

/-- `TrackingHolder.update`: unmanaged names raise `ValueError`; watched
fields are added to the dirty set; the value is stored
unconditionally. -/
def Holder.update (mgr : Manager) (h : Holder) (f : String) (v : Val) :
    Except OmErr Holder :=
  match mgr.fields.lookup f with
  | none => .error .valueError
  | some fd =>
    .ok { dirty := if fd.unwatch then h.dirty
                   else if f ∈ h.dirty then h.dirty else h.dirty ++ [f],
          valuesMap := setAssoc h.valuesMap f v }

/-- `TrackingHolder.reset`: clear the dirty set; a non-empty initial dict
is merged into the value ledger first. -/
def Holder.reset (h : Holder) (data : List (String × Val)) : Holder :=
  { dirty := [],
    valuesMap := if data.isEmpty then h.valuesMap
                 else data.foldl (fun m p => setAssoc m p.1 p.2) h.valuesMap }

/-- `TrackingHolder.dirty_fields_map`. -/
def Holder.dirtyFieldsMap (h : Holder) : List (String × Val) :=
  h.dirty.map (fun k => (k, h.get k))

/-- `QueryIterator._wrap_instance` as it acts on the instance's holder:
a fresh instance's fields are assigned from the row (each assignment
goes through `Field.__set__`, i.e. `Holder.update`), then the holder is
reset to mark the instance clean. -/
def wrapInstance (mgr : Manager) (pairs : List (String × Val)) :
    Except OmErr Holder :=
  (pairs.foldlM (fun h p => Holder.update mgr h p.1 p.2) Holder.empty).map
    (fun h => h.reset [])

/-! ## Query context (`src/om/table.py`, class `ExecContext`)

`AliasTables` is the pair of dicts `self.mappers` (mapper → alias) and
`self.alias_map` (alias → mapper), kept as insertion-ordered association
lists; `alias = "t%s" % (len(self.mappers) + 1)`. -/

structure AliasTables where
  mappers : List (Mapper × String)
  aliasMap : List (String × Mapper)
deriving DecidableEq

def AliasTables.empty : AliasTables := ⟨[], []⟩

/-- `ExecContext._add_table_mapper`. -/
def addTableMapper (t : AliasTables) (m : Mapper) : AliasTables :=
  if m ∈ t.mappers.map Prod.fst then t
  else
    let a := "t" ++ toString (t.mappers.length + 1)
    ⟨t.mappers ++ [(m, a)], t.aliasMap ++ [(a, m)]⟩

/-- `INNER JOIN` / `LEFT JOIN` / `RIGHT JOIN` specification
(`JoinSpec`). -/
structure JoinSpecM where
  tb : Mapper
  joinTp : String
  onCols : Column × Column

/-- The query context: alias tables, join list, optional where
expression, base table mapper, and the `db_spec` formatting hooks
(`format_column`, `format_table_name`, `quote`). -/
structure Ctx where
  tables : AliasTables
  joins : List JoinSpecM
  whereExpr : Option Expr
  tableMapper : Mapper
  formatColumn : String → String → String
  formatTableName : String → String
  quote : String → String

/-- `Database.format_column` of `src/om/db/base.py`. -/
def dbFormatColumn (a c : String) : String := a ++ "." ++ c

/-- `Database.format_table_name` of `src/om/db/base.py`. -/
def dbFormatTableName (t : String) : String := t

/-- `Database.quote` of `src/om/db/base.py`. -/
def dbQuote (n : String) : String := "`" ++ n ++ "`"

/-- `ExecContext.__init__`: a fresh context registers its base mapper
first. -/
def execContextInit (m : Mapper) : Ctx :=
  { tables := addTableMapper AliasTables.empty m, joins := [],
    whereExpr := none, tableMapper := m,
    formatColumn := dbFormatColumn, formatTableName := dbFormatTableName,
    quote := dbQuote }

/-- `ExecContext.get_col_name`: `self.mappers[column.table_mapper]` is a
raw dict item access, so a mapper that was never registered raises the
built-in `KeyError` (and a column never bound to a mapper looks up the
key `None`, also a `KeyError`). -/
def getColName (ctx : Ctx) (col : Column) : Except OmErr String :=
  match col.tableMapper with
  | none => .error .keyError
  | some m =>
    match ctx.tables.mappers.lookup m with
    | none => .error .keyError
    | some a => .ok (ctx.formatColumn a col.dbColumn)

/-- `ExecContext.resolve_mapper`: first registered mapper whose
`__managed_set__` contains the entity class. -/
def resolveMapper (ctx : Ctx) (entity : Nat) : Option Mapper :=
  (ctx.tables.mappers.find? (fun p => p.1.managed.contains entity)).map Prod.fst

/-- Alias lookup through an optional mapper key (`self.mappers[x]` where
`x` may be `None`). -/
def lookupOptKey (l : List (Mapper × String)) : Option Mapper → Option String
  | none => none
  | some m => l.lookup m

/-- One join clause of `ExecContext.get_joins_sql`: the joined table is
`format_table_name`-formatted but its alias is used raw, and both `ON`
columns are qualified through the alias tables. -/
def joinPartSql (ctx : Ctx) (j : JoinSpecM) : Except OmErr String := do
  match ctx.tables.mappers.lookup j.tb with
  | none => .error .keyError
  | some tbAlias =>
    match lookupOptKey ctx.tables.mappers j.onCols.2.tableMapper with
    | none => .error .keyError
    | some aliasB =>
      match lookupOptKey ctx.tables.mappers j.onCols.1.tableMapper with
      | none => .error .keyError
      | some aliasA =>
        .ok (j.joinTp ++ " " ++ ctx.formatTableName j.tb.dbTable ++ " AS "
          ++ tbAlias ++ " ON " ++ ctx.formatColumn aliasA j.onCols.1.dbColumn
          ++ " = " ++ ctx.formatColumn aliasB j.onCols.2.dbColumn)

/-- `ExecContext.get_joins_sql`: base table with formatted alias, then
each join clause in registration order, space-joined. -/
def getJoinsSql (ctx : Ctx) : Except OmErr String := do
  match ctx.tables.mappers.lookup ctx.tableMapper with
  | none => .error .keyError
  | some a =>
    let base := ctx.formatTableName ctx.tableMapper.dbTable ++ " AS "
      ++ ctx.formatTableName a
    let parts ← ctx.joins.mapM (joinPartSql ctx)
    .ok (String.intercalate " " (base :: parts))

/-- Aliases `"t<n>", "t<n+1>", …` paired with a run of mappers, as the
spec describes first-seen alias assignment. -/
def tagAliases : Nat → List Mapper → List (Mapper × String)
  | _, [] => []
  | n, m :: ms => (m, "t" ++ toString n) :: tagAliases (n + 1) ms

/-- The inverse `alias → mapper` pairs of `tagAliases`. -/
def tagAliasesInv : Nat → List Mapper → List (String × Mapper)
  | _, [] => []
  | n, m :: ms => ("t" ++ toString n, m) :: tagAliasesInv (n + 1) ms

/-- The distinct mappers of a registration sequence in first-seen order,
relative to an already-seen key set. -/
def firstSeenFrom (seen : List Mapper) : List Mapper → List Mapper
  | [] => []
  | m :: ms =>
    if m ∈ seen then firstSeenFrom seen ms
    else m :: firstSeenFrom (seen ++ [m]) ms

def firstSeen (ms : List Mapper) : List Mapper := firstSeenFrom [] ms

theorem addAll_tables (ms : List Mapper) : ∀ t : AliasTables,
    (ms.foldl addTableMapper t).mappers
      = t.mappers ++ tagAliases (t.mappers.length + 1)
          (firstSeenFrom (t.mappers.map Prod.fst) ms) ∧
    (ms.foldl addTableMapper t).aliasMap
      = t.aliasMap ++ tagAliasesInv (t.mappers.length + 1)
          (firstSeenFrom (t.mappers.map Prod.fst) ms) := by
  induction ms with
  | nil => intro t; simp [firstSeenFrom, tagAliases, tagAliasesInv]
  | cons m ms ih =>
    intro t
    simp only [List.foldl_cons]
    by_cases hm : m ∈ t.mappers.map Prod.fst
    · have ht : addTableMapper t m = t := by rw [addTableMapper, if_pos hm]
      rw [ht]
      simpa [firstSeenFrom, hm] using ih t
    · have ht : addTableMapper t m =
        ⟨t.mappers ++ [(m, "t" ++ toString (t.mappers.length + 1))],
         t.aliasMap ++ [("t" ++ toString (t.mappers.length + 1), m)]⟩ := by
        rw [addTableMapper, if_neg hm]
      rw [ht]
      have h2 := ih ⟨t.mappers ++ [(m, "t" ++ toString (t.mappers.length + 1))],
        t.aliasMap ++ [("t" ++ toString (t.mappers.length + 1), m)]⟩
      simp only [List.map_append, List.map_cons, List.map_nil,
        List.length_append, List.length_cons, List.length_nil] at h2
      rw [h2.1, h2.2]
      simp [firstSeenFrom, hm, tagAliases, tagAliasesInv,
        Nat.add_assoc, Nat.add_comm 1 1]

/-- C9: within one query context every distinct table mapper gets exactly
one alias, `t1, t2, …` in first-seen registration order (the context's
two alias tables are exactly the first-seen list tagged with consecutive
aliases starting at `t1`), and registering an already-registered mapper
changes neither alias table. -/
theorem ctx_alias_first_seen_order :
    (∀ ms : List Mapper,
       (ms.foldl addTableMapper AliasTables.empty).mappers
         = tagAliases 1 (firstSeen ms) ∧
       (ms.foldl addTableMapper AliasTables.empty).aliasMap
         = tagAliasesInv 1 (firstSeen ms)) ∧
    ∀ (t : AliasTables) (m : Mapper),
      addTableMapper (addTableMapper t m) m = addTableMapper t m := by
  constructor
  · intro ms
    have h := addAll_tables ms AliasTables.empty
    simpa [AliasTables.empty, firstSeen] using h
  · intro t m
    by_cases hm : m ∈ t.mappers.map Prod.fst
    · have ht : addTableMapper t m = t := by rw [addTableMapper, if_pos hm]
      rw [ht, ht]
    · have ht : addTableMapper t m =
        ⟨t.mappers ++ [(m, "t" ++ toString (t.mappers.length + 1))],
         t.aliasMap ++ [("t" ++ toString (t.mappers.length + 1), m)]⟩ := by
        rw [addTableMapper, if_neg hm]
      rw [ht, addTableMapper, if_pos (by simp)]

/-- The `Books` table mapper of `src/test.py` (`db_table "t_book"`,
columns `id`, `name`, identifier `id`, managing entity `Book`, class
identity 0 / entity identity 0). -/
def mapperBooks : Mapper :=
  ⟨0, "t_book", [("id", "id"), ("name", "name")], ["id"], [0]⟩

/-- The `Authors` table mapper of `src/test.py` (`db_table "author"`,
class identity 1, managing entity `Author` with identity 1). -/
def mapperAuthors : Mapper :=
  ⟨1, "author", [("id", "id"), ("name", "name")], ["id"], [1]⟩

/-- A context opened on `Books` alone (no joins). -/
def ctxBooks : Ctx := execContextInit mapperBooks

/-- C5 counterexample: the claim says resolving a column of an
unregistered mapper fails with a configuration error
(`ImproperlyConfig`); in the code `ExecContext.get_col_name` performs a
raw dict access `self.mappers[column.table_mapper]`, so with `Authors`
never registered in a `Books` context the failure is the built-in
`KeyError`, which is not the configuration-error class. -/
theorem getColName_unregistered_not_configError :
    getColName ctxBooks ⟨"id", some mapperAuthors⟩ = .error .keyError ∧
    OmErr.keyError ≠ OmErr.improperlyConfig := ⟨rfl, by decide⟩

/-- C5 (amended): for every column whose declaring table mapper was never
registered in the context, `ExecContext.get_col_name` fails — but by
raising the built-in `KeyError` of the alias-dict lookup, not an
`ImproperlyConfig` configuration error. -/
theorem getColName_unregistered_raises_keyError (ctx : Ctx) (col : Column)
    (m : Mapper) (hcol : col.tableMapper = some m)
    (hreg : ctx.tables.mappers.lookup m = none) :
    getColName ctx col = .error .keyError := by
  unfold getColName
  rw [hcol]
  simp only [hreg]

theorem getColName_unregistered_raises_keyError_witness :
    getColName ctxBooks ⟨"name", some mapperAuthors⟩ = .error .keyError :=
  getColName_unregistered_raises_keyError ctxBooks ⟨"name", some mapperAuthors⟩
    mapperAuthors rfl rfl

/-- `Expr._generating_sql` with the fallible
`ExecContext.get_col_name` as column-naming function (used by the
update/delete plans): a lookup failure propagates out of the
rendering. -/
def generatingSqlE (c : Column) (k : ExprKind)
    (fn : Column → Except OmErr String) (args : List Val) :
    Except OmErr (String × List Val) := do
  let n ← fn c
  match k with
  | .plain op v => .ok (n ++ " " ++ op ++ " %s", args ++ [v])
  | .between a b =>
    .ok (String.intercalate " " [n, "BETWEEN", "%s", "AND", "%s"],
      args ++ [a, b])
  | .isNull => .ok (String.intercalate " " [n, "IS NULL"], args)
  | .isNotNull => .ok (String.intercalate " " [n, "IS NOT NULL"], args)

mutual
/-- `Expr.building` with a fallible column-naming function. -/
def Expr.buildingE : Expr → (Column → Except OmErr String) → List Val →
    Except OmErr (String × List Val)
  | .mk c k next, fn, args => do
    let p ← generatingSqlE c k fn args
    let q ← Chain.buildingListE next fn p.2
    .ok (String.intercalate " " (p.1 :: q.1), q.2)

def Chain.buildingListE : Chain → (Column → Except OmErr String) → List Val →
    Except OmErr (List String × List Val)
  | .nil, _, args => .ok ([], args)
  | .cons tp e rest, fn, args => do
    let p ← Expr.buildingE e fn args
    let q ← Chain.buildingListE rest fn p.2
    .ok ((tp ++ " (" ++ p.1 ++ ")") :: q.1, q.2)
end

/-! ## Update plan (`src/om/table.py`, class `UpdatePlan`) -/

/-- A tracked entity instance as the update plan sees it: its entity
class identity, the declared field names of its class
(`EntityInfo.field_names()`, non-empty for every real entity because
`EntityMapper._get_or_create` rejects empty classes), and its tracking
holder. -/
structure Inst where
  entity : Nat
  fieldNames : List String
  holder : Holder

/-- `getattr(instance, f)` through `Field.__get__`. -/
def Inst.getF (i : Inst) (f : String) : Val := i.holder.get f

/-- The per-field loop of `UpdatePlan._execute`: for each field name,
resolve the column (`None` makes `get_col_name` dereference
`None.table_mapper`, an `AttributeError`), qualify it through the
context, reject the unset sentinel, and append `"<col>=%s"` and the
value. -/
def buildFields (ctx : Ctx) (m : Mapper) (onlyDirty : Bool) (i : Inst)
    (dirty : List (String × Val)) :
    List String → List String × List Val →
    Except OmErr (List String × List Val)
  | [], acc => .ok acc
  | f :: rest, acc =>
    match m.getColumn f with
    | none => .error .attributeError
    | some col =>
      match getColName ctx col with
      | .error e => .error e
      | .ok cn =>
        let v := if onlyDirty then (dirty.lookup f).getD Val.zero
                 else i.getF f
        if v.isZero then .error .valueError
        else buildFields ctx m onlyDirty i dirty rest
          (acc.1 ++ [cn ++ "=%s"], acc.2 ++ [v])

/-- One iteration of `UpdatePlan._execute`'s instance loop: the
`(field_s, where_s, args)` contributions of this instance, or the
exception it raises.  An instance with no dirty fields in only-dirty
mode is skipped and contributes nothing.  The identifier is an
unspecified `set.pop()` from `id_names & set(info.field_names())`; the
embedding determinizes it as the first eligible name in `identifiers`
order, and the `WHERE` piece uses the bare field name, as the source
does. -/
def processInstance (ctx : Ctx) (onlyDirty : Bool) (i : Inst) :
    Except OmErr (List String × List String × List Val) :=
  let dirty := i.holder.dirtyFieldsMap
  if dirty.isEmpty && onlyDirty then .ok ([], [], [])
  else
    match resolveMapper ctx i.entity with
    | none => .error .improperlyConfig
    | some m =>
      let fieldNames := if onlyDirty then dirty.map Prod.fst else i.fieldNames
      match buildFields ctx m onlyDirty i dirty fieldNames ([], []) with
      | .error e => .error e
      | .ok (fieldS, args) =>
        match m.identifiers.filter (fun n => i.fieldNames.contains n) with
        | [] => .ok (fieldS, [], args)
        | idc :: _ => .ok (fieldS, [idc ++ "=%s"], args ++ [i.getF idc])

/-- The instance loop of `UpdatePlan._execute`: contributions accumulate
into the shared `field_s`, `where_s` and `args` lists. -/
def processAll (ctx : Ctx) (onlyDirty : Bool) :
    List Inst → List String × List String × List Val →
    Except OmErr (List String × List String × List Val)
  | [], acc => .ok acc
  | i :: rest, acc =>
    match processInstance ctx onlyDirty i with
    | .error e => .error e
    | .ok (fs, ws, ar) =>
      processAll ctx onlyDirty rest (acc.1 ++ fs, acc.2.1 ++ ws, acc.2.2 ++ ar)

/-- `holder.reset()` applied to an instance in the final loop of a
successful `_execute`. -/
def resetInst (i : Inst) : Inst := { i with holder := i.holder.reset [] }

/-- Outcome of `UpdatePlan._execute`: the result (`affected_cnt` or the
exception raised), the instances with their final tracking state, and
the statements actually issued to the database. -/
structure UpdateOutcome where
  result : Except OmErr Int
  insts : List Inst
  issued : List (String × List Val)

/-- `UpdatePlan._execute`.  `dbExec` is `Database.execute_rowcount` at
the driver boundary (it may fail with the wrapped `OperationalError`).
Instance holders are mutated only by the final reset loop, which runs
only after the statement executed without raising, so on every error
path the instances are returned untouched. -/
def updateExecute (ctx : Ctx) (dbExec : String → List Val → Except OmErr Int)
    (instances : List Inst) (onlyDirty : Bool) : UpdateOutcome :=
  if instances.isEmpty then ⟨.error .improperlyConfig, instances, []⟩
  else
    match processAll ctx onlyDirty instances ([], [], []) with
    | .error e => ⟨.error e, instances, []⟩
    | .ok (fieldS, whereS, args) =>
      if fieldS.isEmpty then ⟨.ok 0, instances, []⟩
      else
        match (match ctx.whereExpr with
               | none => Except.ok (whereS, args)
               | some w =>
                 match w.buildingE (getColName ctx) args with
                 | .error e => .error e
                 | .ok (s, a) => .ok (whereS ++ [s], a)) with
        | .error e => ⟨.error e, instances, []⟩
        | .ok (whereS2, args2) =>
          if whereS2.isEmpty then ⟨.error .improperlyConfig, instances, []⟩
          else
            match getJoinsSql ctx with
            | .error e => ⟨.error e, instances, []⟩
            | .ok joins =>
              let sql := "UPDATE " ++ joins ++ " SET "
                ++ String.intercalate "," fieldS ++ " WHERE "
                ++ String.intercalate " AND " whereS2
              match dbExec sql args2 with
              | .error e => ⟨.error e, instances, [(sql, args2)]⟩
              | .ok n => ⟨.ok n, instances.map resetInst, [(sql, args2)]⟩

theorem processInstance_clean (ctx : Ctx) (i : Inst)
    (h : i.holder.dirty = []) : processInstance ctx true i = .ok ([], [], []) := by
  unfold processInstance
  simp [Holder.dirtyFieldsMap, h]

theorem processAll_clean (ctx : Ctx) (insts : List Inst)
    (h : ∀ i ∈ insts, i.holder.dirty = []) :
    ∀ acc, processAll ctx true insts acc = .ok acc := by
  induction insts with
  | nil => intro acc; rfl
  | cons i rest ih =>
    intro acc
    rw [processAll, processInstance_clean ctx i (h i (List.mem_cons_self _ _))]
    simpa using ih (fun j hj => h j (List.mem_cons_of_mem _ hj)) acc

/-- C7: an `UpdatePlan` in default only-dirty mode over a non-empty
instance list in which no instance has a dirty field issues no SQL
statement and reports `affected_cnt = 0`; this is a legitimate no-op,
not an error. -/
theorem updatePlan_no_dirty_noop (ctx : Ctx)
    (dbExec : String → List Val → Except OmErr Int) (instances : List Inst)
    (hne : instances ≠ [])
    (hclean : ∀ i ∈ instances, i.holder.dirty = []) :
    updateExecute ctx dbExec instances true = ⟨.ok 0, instances, []⟩ := by
  unfold updateExecute
  rw [if_neg (by simpa using hne)]
  rw [processAll_clean ctx instances hclean ([], [], [])]
  rfl

/-- A clean `Book` instance as produced by a select query (`id`, `name`
loaded, nothing dirty). -/
def instBookClean : Inst :=
  ⟨0, ["id", "name"], ⟨[], [("id", Val.int 1), ("name", Val.str "Python")]⟩⟩

/-- A database stub whose `execute_rowcount` would report one affected
row. -/
def dbOk : String → List Val → Except OmErr Int := fun _ _ => .ok 1

theorem updatePlan_no_dirty_noop_witness :
    updateExecute ctxBooks dbOk [instBookClean] true
      = ⟨.ok 0, [instBookClean], []⟩ :=
  updatePlan_no_dirty_noop ctxBooks dbOk [instBookClean]
    (by simp) (by decide)

theorem updateExecute_insts_cases (ctx : Ctx)
    (dbExec : String → List Val → Except OmErr Int) (instances : List Inst)
    (od : Bool) :
    (updateExecute ctx dbExec instances od).insts = instances ∨
    ∃ n, (updateExecute ctx dbExec instances od).result = .ok n := by
  unfold updateExecute
  split
  · exact Or.inl rfl
  · split
    · exact Or.inl rfl
    · split
      · exact Or.inl rfl
      · split
        · exact Or.inl rfl
        · split
          · exact Or.inl rfl
          · split
            · exact Or.inl rfl
            · dsimp only
              split
              · exact Or.inl rfl
              · exact Or.inr ⟨_, rfl⟩

/-- C10: if the database `execute` raises during an `UpdatePlan`'s
execution, the dirty-tracking state of every instance passed to the plan
is left unchanged — holders are reset only after the `UPDATE` statement
has executed without raising, so on every error outcome the plan returns
the instances exactly as they were. -/
theorem updatePlan_error_keeps_tracking (ctx : Ctx)
    (dbExec : String → List Val → Except OmErr Int) (instances : List Inst)
    (od : Bool) (e : OmErr)
    (herr : (updateExecute ctx dbExec instances od).result = .error e) :
    (updateExecute ctx dbExec instances od).insts = instances := by
  rcases updateExecute_insts_cases ctx dbExec instances od with h | ⟨n, hn⟩
  · exact h
  · rw [herr] at hn
    simp at hn

/-- A `Book` instance whose `name` field is dirty. -/
def instBookDirty : Inst :=
  ⟨0, ["id", "name"], ⟨["name"], [("id", Val.int 3), ("name", Val.str "akun")]⟩⟩

/-- A database stub whose `execute` always fails with the wrapped
`OperationalError`. -/
def dbFail : String → List Val → Except OmErr Int :=
  fun _ _ => .error .operational

theorem updatePlan_error_keeps_tracking_witness :
    (updateExecute ctxBooks dbFail [instBookDirty] true).insts
      = [instBookDirty] :=
  updatePlan_error_keeps_tracking ctxBooks dbFail [instBookDirty] true
    .operational rfl

theorem wrapInstance_clean (mgr : Manager) (pairs : List (String × Val))
    (h : Holder) (hok : wrapInstance mgr pairs = .ok h) : h.dirty = [] := by
  unfold wrapInstance at hok
  cases hfold : pairs.foldlM (fun h p => Holder.update mgr h p.1 p.2) Holder.empty with
  | error e => rw [hfold] at hok; simp [Except.map] at hok
  | ok h0 =>
    rw [hfold] at hok
    simp only [Except.map] at hok
    cases hok
    rfl

theorem update_marks_dirty (mgr : Manager) (h : Holder) (f : String)
    (fd : FieldD) (v : Val) (hclean : h.dirty = [])
    (hf : mgr.fields.lookup f = some fd) (hw : fd.unwatch = false) :
    Holder.update mgr h f v = .ok ⟨[f], setAssoc h.valuesMap f v⟩ := by
  unfold Holder.update
  rw [hf]
  simp [hw, hclean]

theorem buildFields_length (ctx : Ctx) (m : Mapper) (od : Bool) (i : Inst)
    (dirty : List (String × Val)) :
    ∀ (names : List String) (acc : List String × List Val)
      (r : List String × List Val),
      buildFields ctx m od i dirty names acc = .ok r →
      r.1.length = acc.1.length + names.length := by
  intro names
  induction names with
  | nil =>
    intro acc r hr
    rw [buildFields] at hr
    cases hr
    simp
  | cons f rest ih =>
    intro acc r hr
    rw [buildFields] at hr
    split at hr
    · exact absurd hr (by simp)
    · split at hr
      · exact absurd hr (by simp)
      · dsimp only at hr
        split at hr
        all_goals split at hr
        any_goals exact Except.noConfusion hr
        all_goals
          have := ih _ r hr
          simp at this ⊢
          omega

theorem processInstance_empty_fields (ctx : Ctx) (od : Bool) (i : Inst)
    (ws : List String) (ar : List Val)
    (hok : processInstance ctx od i = .ok ([], ws, ar)) :
    (od = true ∧ i.holder.dirty = []) ∨ (od = false ∧ i.fieldNames = []) := by
  cases od with
  | false =>
    unfold processInstance at hok
    dsimp only at hok
    rw [if_neg (by simp)] at hok
    split at hok
    · exact Except.noConfusion hok
    · rename_i m hm
      split at hok
      · exact Except.noConfusion hok
      · rename_i fieldS args hbf
        right
        refine ⟨rfl, ?_⟩
        have hlen := buildFields_length _ _ _ _ _ _ _ _ hbf
        split at hok <;>
          simp only [Except.ok.injEq, Prod.mk.injEq] at hok <;>
          rw [hok.1] at hlen <;>
          simpa using hlen.symm
  | true =>
    unfold processInstance at hok
    dsimp only at hok
    by_cases hskip : i.holder.dirtyFieldsMap.isEmpty = true
    · left
      refine ⟨rfl, ?_⟩
      have hmap : i.holder.dirtyFieldsMap = [] := by simpa using hskip
      simpa [Holder.dirtyFieldsMap] using hmap
    · rw [if_neg (by simpa using hskip)] at hok
      split at hok
      · exact Except.noConfusion hok
      · rename_i m hm
        split at hok
        · exact Except.noConfusion hok
        · rename_i fieldS args hbf
          left
          refine ⟨rfl, ?_⟩
          have hlen := buildFields_length _ _ _ _ _ _ _ _ hbf
          split at hok <;>
            simp only [Except.ok.injEq, Prod.mk.injEq] at hok <;>
            rw [hok.1] at hlen <;>
            simpa [Holder.dirtyFieldsMap] using hlen.symm

theorem processAll_empty (ctx : Ctx) (od : Bool) :
    ∀ (insts : List Inst) (acc r : List String × List String × List Val),
      processAll ctx od insts acc = .ok r → r.1 = [] →
      acc.1 = [] ∧
      ∀ i ∈ insts, ∃ ws ar, processInstance ctx od i = .ok ([], ws, ar) := by
  intro insts
  induction insts with
  | nil =>
    intro acc r h hr
    rw [processAll] at h
    injection h with h'
    subst h'
    exact ⟨hr, by simp⟩
  | cons i rest ih =>
    intro acc r h hr
    rw [processAll] at h
    split at h
    · exact Except.noConfusion h
    · rename_i fs ws ar hpi
      obtain ⟨hacc, hall⟩ := ih _ r h hr
      simp only [List.append_eq_nil] at hacc
      refine ⟨hacc.1, ?_⟩
      intro j hj
      rcases List.mem_cons.mp hj with rfl | hj'
      · rw [hacc.2] at hpi
        exact ⟨ws, ar, hpi⟩
      · exact hall j hj'

theorem updateExecute_success_cases (ctx : Ctx)
    (dbExec : String → List Val → Except OmErr Int) (instances : List Inst)
    (od : Bool) :
    (∃ e, (updateExecute ctx dbExec instances od).result = .error e) ∨
    ((updateExecute ctx dbExec instances od).insts = instances ∧
     ∃ whereS args,
       processAll ctx od instances ([], [], []) = .ok ([], whereS, args)) ∨
    (updateExecute ctx dbExec instances od).insts
      = instances.map resetInst := by
  unfold updateExecute
  split
  · exact Or.inl ⟨_, rfl⟩
  · split
    · exact Or.inl ⟨_, rfl⟩
    · rename_i fieldS whereS args hpa
      split
      · rename_i hfe
        have hfs : fieldS = [] := by simpa using hfe
        rw [hfs] at hpa
        exact Or.inr (Or.inl ⟨rfl, whereS, args, hpa⟩)
      · split
        · exact Or.inl ⟨_, rfl⟩
        · split
          · exact Or.inl ⟨_, rfl⟩
          · split
            · exact Or.inl ⟨_, rfl⟩
            · dsimp only
              split
              · exact Or.inl ⟨_, rfl⟩
              · exact Or.inr (Or.inr rfl)

theorem updateExecute_success_clean (ctx : Ctx)
    (dbExec : String → List Val → Except OmErr Int) (instances : List Inst)
    (od : Bool) (n : Int)
    (hfn : ∀ i ∈ instances, i.fieldNames ≠ [])
    (hok : (updateExecute ctx dbExec instances od).result = .ok n) :
    ∀ i ∈ (updateExecute ctx dbExec instances od).insts,
      i.holder.dirty = [] := by
  rcases updateExecute_success_cases ctx dbExec instances od with
    ⟨e, he⟩ | ⟨hinsts, whereS, args, hpa⟩ | hmap
  · rw [hok] at he
    simp at he
  · rw [hinsts]
    intro i hi
    obtain ⟨ws, ar, hpi⟩ :=
      (processAll_empty ctx od instances ([], [], []) ([], whereS, args)
        hpa rfl).2 i hi
    rcases processInstance_empty_fields ctx od i ws ar hpi with
      ⟨-, hd⟩ | ⟨-, hfn0⟩
    · exact hd
    · exact absurd hfn0 (hfn i hi)
  · rw [hmap]
    intro i hi
    obtain ⟨j, hj, rfl⟩ := List.mem_map.mp hi
    rfl

/-- C6: an entity instance populated by a select query has an empty
dirty-field set immediately after `_wrap_instance` resets it; mutating
exactly one watched field from the clean state makes the dirty set
exactly that field; and after an `UpdatePlan` executes successfully
(`affected_cnt` returned, no exception) every instance handed back by
the plan has an empty dirty set again.  (The third part assumes each
instance's entity declares at least one field, which
`EntityMapper._get_or_create` enforces by rejecting empty entity
classes.) -/
theorem dirty_tracking_lifecycle :
    (∀ (mgr : Manager) (pairs : List (String × Val)) (h : Holder),
        wrapInstance mgr pairs = .ok h → h.dirty = []) ∧
    (∀ (mgr : Manager) (h : Holder) (f : String) (fd : FieldD) (v : Val),
        h.dirty = [] → mgr.fields.lookup f = some fd → fd.unwatch = false →
        Holder.update mgr h f v = .ok ⟨[f], setAssoc h.valuesMap f v⟩) ∧
    (∀ (ctx : Ctx) (dbExec : String → List Val → Except OmErr Int)
        (instances : List Inst) (od : Bool) (n : Int),
        (∀ i ∈ instances, i.fieldNames ≠ []) →
        (updateExecute ctx dbExec instances od).result = .ok n →
        ∀ i ∈ (updateExecute ctx dbExec instances od).insts,
          i.holder.dirty = []) :=
  ⟨wrapInstance_clean, update_marks_dirty, updateExecute_success_clean⟩

/-- The tracking manager of the `Book` entity: watched fields `id` and
`name`. -/
def mgrBook : Manager := ⟨[("id", ⟨false⟩), ("name", ⟨false⟩)]⟩

theorem dirty_tracking_lifecycle_witness :
    (wrapInstance mgrBook [("id", Val.int 1), ("name", Val.str "Python")]
       = .ok ⟨[], [("id", Val.int 1), ("name", Val.str "Python")]⟩ ∧
     (⟨[], [("id", Val.int 1), ("name", Val.str "Python")]⟩ : Holder).dirty
       = []) ∧
    Holder.update mgrBook ⟨[], [("id", Val.int 1), ("name", Val.str "Python")]⟩
      "name" (Val.str "Golang")
      = .ok ⟨["name"],
          setAssoc [("id", Val.int 1), ("name", Val.str "Python")] "name"
            (Val.str "Golang")⟩ ∧
    ((updateExecute ctxBooks dbOk [instBookDirty] true).result = .ok 1 ∧
     ∀ i ∈ (updateExecute ctxBooks dbOk [instBookDirty] true).insts,
       i.holder.dirty = []) :=
  ⟨⟨rfl, dirty_tracking_lifecycle.1 mgrBook
      [("id", Val.int 1), ("name", Val.str "Python")]
      ⟨[], [("id", Val.int 1), ("name", Val.str "Python")]⟩ rfl⟩,
   dirty_tracking_lifecycle.2.1 mgrBook
     ⟨[], [("id", Val.int 1), ("name", Val.str "Python")]⟩ "name" ⟨false⟩
     (Val.str "Golang") rfl rfl rfl,
   rfl,
   dirty_tracking_lifecycle.2.2 ctxBooks dbOk [instBookDirty] true 1
     (by decide) rfl⟩
